import Mathlib

/-!
Shallow embedding of the BRC20S protocol numeric and decoding layers.

The source of truth is the Rust code of the repository:
* `src/brc20/num.rs` — the bounded decimal `Num` wrapping a `BigDecimal`
  (a big-integer mantissa `int_val` together with a decimal `scale`);
* `src/okx/protocol/brc30/operation/transfer.rs` — the `Transfer`
  operation payload and its serde field renames;
* `src/subcommand/server/brc20/receipt.rs` — the `Receipt → TxEvent`
  projection for the query API.

Machine integers are modelled as `Int`/`Nat`; the `bigdecimal` crate's
`BigDecimal` is modelled as a mantissa/scale pair, with its arithmetic,
ordering, parsing (`from_str_radix`) and display translated operation by
operation from the crate as used by the repository.
-/

/-- Model of `bigdecimal::BigDecimal`: a big-integer mantissa `int_val`
and a decimal exponent `scale`; the denoted value is
`int_val / 10 ^ scale`. -/
structure BigDec where
  int_val : Int
  scale : Int
  deriving Repr, DecidableEq

/-- The rational value denoted by a `BigDec`. -/
def bdVal (d : BigDec) : ℚ :=
  (d.int_val : ℚ) * (10 : ℚ) ^ (-d.scale)

/-- Mantissa of `d` rescaled to the (larger) scale `S`, as in the
crate's `take_and_scale` used by addition and comparison. -/
def alignMant (d : BigDec) (S : Int) : Int :=
  d.int_val * 10 ^ (S - d.scale).toNat

/-- `BigDecimal` addition: align both operands to the larger scale and
add the mantissas. -/
def bdAdd (x y : BigDec) : BigDec :=
  let S := max x.scale y.scale
  ⟨alignMant x S + alignMant y S, S⟩

/-- `BigDecimal` subtraction: align to the larger scale and subtract
the mantissas. -/
def bdSub (x y : BigDec) : BigDec :=
  let S := max x.scale y.scale
  ⟨alignMant x S - alignMant y S, S⟩

/-- `BigDecimal` multiplication: mantissas multiply, scales add. -/
def bdMul (x y : BigDec) : BigDec :=
  ⟨x.int_val * y.int_val, x.scale + y.scale⟩

/-- `BigDecimal` equality (`PartialEq`): align both operands to the
unified (larger) scale and compare the mantissas. -/
def bdEq (x y : BigDec) : Bool :=
  let S := max x.scale y.scale
  alignMant x S = alignMant y S

/-- `BigDecimal` strict order (`PartialOrd`/`Ord`): the sign of `x - y`,
i.e. scale-aligned mantissa comparison. -/
def bdLt (x y : BigDec) : Bool :=
  let S := max x.scale y.scale
  alignMant x S < alignMant y S

theorem ten_zpow_ne_zero (k : Int) : (10 : ℚ) ^ k ≠ 0 :=
  zpow_ne_zero k (by norm_num)

theorem alignMant_val (d : BigDec) (S : Int) (h : d.scale ≤ S) :
    (alignMant d S : ℚ) * (10 : ℚ) ^ (-S) = bdVal d := by
  unfold alignMant bdVal
  push_cast
  rw [← zpow_natCast (10 : ℚ) (S - d.scale).toNat,
    Int.toNat_of_nonneg (by omega : (0 : Int) ≤ S - d.scale),
    mul_assoc, ← zpow_add₀ (by norm_num : (10 : ℚ) ≠ 0)]
  ring_nf

theorem bdVal_add (x y : BigDec) : bdVal (bdAdd x y) = bdVal x + bdVal y := by
  have hx := alignMant_val x (max x.scale y.scale) (le_max_left _ _)
  have hy := alignMant_val y (max x.scale y.scale) (le_max_right _ _)
  rw [← hx, ← hy]
  show ((alignMant x (max x.scale y.scale) + alignMant y (max x.scale y.scale) : Int) : ℚ)
      * (10 : ℚ) ^ (-(max x.scale y.scale)) = _
  push_cast
  ring

theorem bdVal_sub (x y : BigDec) : bdVal (bdSub x y) = bdVal x - bdVal y := by
  have hx := alignMant_val x (max x.scale y.scale) (le_max_left _ _)
  have hy := alignMant_val y (max x.scale y.scale) (le_max_right _ _)
  rw [← hx, ← hy]
  show ((alignMant x (max x.scale y.scale) - alignMant y (max x.scale y.scale) : Int) : ℚ)
      * (10 : ℚ) ^ (-(max x.scale y.scale)) = _
  push_cast
  ring

theorem bdVal_mul (x y : BigDec) : bdVal (bdMul x y) = bdVal x * bdVal y := by
  unfold bdMul bdVal
  push_cast
  rw [neg_add, zpow_add₀ (by norm_num : (10 : ℚ) ≠ 0)]
  ring

theorem bdEq_iff_val (x y : BigDec) : bdEq x y = true ↔ bdVal x = bdVal y := by
  unfold bdEq
  simp only [decide_eq_true_eq]
  constructor
  · intro h
    rw [← alignMant_val x (max x.scale y.scale) (le_max_left _ _),
      ← alignMant_val y (max x.scale y.scale) (le_max_right _ _), h]
  · intro h
    have h2 : (alignMant x (max x.scale y.scale) : ℚ) * (10:ℚ) ^ (-(max x.scale y.scale))
        = (alignMant y (max x.scale y.scale) : ℚ) * (10:ℚ) ^ (-(max x.scale y.scale)) := by
      rw [alignMant_val x _ (le_max_left _ _), alignMant_val y _ (le_max_right _ _)]; exact h
    have h3 := mul_right_cancel₀ (ten_zpow_ne_zero _) h2
    exact_mod_cast h3

theorem bdLt_iff_val (x y : BigDec) : bdLt x y = true ↔ bdVal x < bdVal y := by
  unfold bdLt
  simp only [decide_eq_true_eq]
  rw [← alignMant_val x (max x.scale y.scale) (le_max_left _ _),
    ← alignMant_val y (max x.scale y.scale) (le_max_right _ _)]
  constructor
  · intro h
    exact mul_lt_mul_of_pos_right (by exact_mod_cast h)
      (zpow_pos (by norm_num : (0:ℚ) < 10) _)
  · intro h
    have h2 := lt_of_mul_lt_mul_right h
      (le_of_lt (zpow_pos (by norm_num : (0:ℚ) < 10) (-(max x.scale y.scale))))
    exact_mod_cast h2

/-- The protocol maximum fractional width. Modelled from the spec:
`params.rs` (defining `MAX_DECIMAL_WIDTH`) is not under `src/`; the spec
fixes the protocol maximum at 18 fractional digits. -/
def MAX_DECIMAL_WIDTH : Int := 18

namespace Brc20

/-- Model of `Num` (`src/brc20/num.rs`): a newtype over `BigDecimal`. -/
structure Num where
  bd : BigDec
  deriving Repr, DecidableEq

/-- The `BRC20Error` variants produced by the code under `src/`:
`num.rs` constructs `BRC20Error::Overflow { op, org, other }` and
`BRC20Error::InvalidNum(String)`. -/
inductive BRC20Error where
  | Overflow (op : String) (org other : Num)
  | InvalidNum (s : String)
  deriving Repr, DecidableEq

/-- `Num::checked_add`: always `Ok`, delegating to `BigDecimal` addition. -/
def Num.checked_add (a b : Num) : Except BRC20Error Num :=
  .ok ⟨bdAdd a.bd b.bd⟩

/-- `Num::checked_sub`: errors with `Overflow { op: "checked_sub", org: a,
other: b }` when `a.0 < b.0`, else returns the exact difference. -/
def Num.checked_sub (a b : Num) : Except BRC20Error Num :=
  if bdLt a.bd b.bd then
    .error (.Overflow "checked_sub" a b)
  else
    .ok ⟨bdSub a.bd b.bd⟩

/-- `Num::checked_mul`: always `Ok`, delegating to `BigDecimal`
multiplication. -/
def Num.checked_mul (a b : Num) : Except BRC20Error Num :=
  .ok ⟨bdMul a.bd b.bd⟩

/-- The multiplication loop of `Num::checked_powu`: starting from
`self`, multiply by `self` another `k` times. -/
def bdPowLoop (b : BigDec) (k : Nat) : BigDec :=
  match k with
  | 0 => b
  | k + 1 => bdMul (bdPowLoop b k) b

/-- `Num::checked_powu`: `exp = 0` returns `BigDecimal::zero()`
(the protocol quirk), `exp = 1` returns `self`, otherwise the loop
`for _ in 1..exp { result = result * self }`. -/
def Num.checked_powu (n : Num) (exp : Nat) : Except BRC20Error Num :=
  match exp with
  | 0 => .ok ⟨⟨0, 0⟩⟩
  | 1 => .ok n
  | e + 2 => .ok ⟨bdPowLoop n.bd (e + 1)⟩

/-- `BigDecimal::with_scale(0).int_val`, used by `to_bigint` and the
`ToPrimitive` conversions: drop the fractional digits by big-integer
division (truncation toward zero) when `scale > 0`, or append zeros
when `scale ≤ 0`. -/
def bdTrunc (d : BigDec) : Int :=
  if 0 < d.scale then Int.tdiv d.int_val (10 ^ d.scale.toNat)
  else d.int_val * 10 ^ (-d.scale).toNat

/-- `BigDecimal::to_u64` (`ToPrimitive`): `None` for sign `Minus`,
`Some 0` for sign `NoSign`, otherwise `with_scale(0).int_val.to_u64`. -/
def bdToU64 (d : BigDec) : Option Nat :=
  if d.int_val < 0 then none
  else if d.int_val = 0 then some 0
  else if bdTrunc d < 0 then none
  else if bdTrunc d ≤ 2 ^ 64 - 1 then some (bdTrunc d).toNat
  else none

/-- `BigDecimal::to_u8`: the `num-traits` default `to_u64` followed by
a range check against `u8::MAX`. -/
def bdToU8 (d : BigDec) : Option Nat :=
  (bdToU64 d).bind (fun n => if n ≤ 255 then some n else none)

/-- `Num::checked_to_u8`: `to_u8` or `Overflow { op: "to_u8", org: self,
other: Num(u8::MAX) }`. -/
def Num.checked_to_u8 (n : Num) : Except BRC20Error Nat :=
  match bdToU8 n.bd with
  | some v => .ok v
  | none => .error (.Overflow "to_u8" n ⟨⟨255, 0⟩⟩)

/-- `Num::checked_to_u128`: `to_bigint().unwrap()` (truncation toward
zero, always succeeds) then `BigInt::to_u128`, or
`Overflow { op: "to_u128", org: self, other: Num(u128::MAX) }`. -/
def Num.checked_to_u128 (n : Num) : Except BRC20Error Nat :=
  if 0 ≤ bdTrunc n.bd ∧ bdTrunc n.bd ≤ 2 ^ 128 - 1 then
    .ok (bdTrunc n.bd).toNat
  else .error (.Overflow "to_u128" n ⟨⟨2 ^ 128 - 1, 0⟩⟩)

/-- `Num::sign`, reported through the mantissa's sign as in
`BigDecimal::sign`; `true` means `Sign::Minus`. -/
def Num.signIsMinus (n : Num) : Bool :=
  n.bd.int_val < 0

/-- `Num.scale` (`as_bigint_and_exponent().1`). -/
def Num.scale (n : Num) : Int :=
  n.bd.scale

/-- Accumulator loop of decimal digit parsing (`BigInt::from_str_radix`
digit scan): fails on the first non-digit character. -/
def digitsValAux : List Char → Nat → Option Nat
  | [], acc => some acc
  | c :: rest, acc =>
    if c.isDigit then digitsValAux rest (acc * 10 + (c.toNat - 48)) else none

/-- Parse a non-empty run of decimal digits to its value; `none` on an
empty list or any non-digit character. -/
def digitsVal (cs : List Char) : Option Nat :=
  match cs with
  | [] => none
  | _ => digitsValAux cs 0

/-- `BigInt::from_str_radix` (radix 10): an optional leading sign
followed by a non-empty digit run. -/
def bigIntFromStr (cs : List Char) : Option Int :=
  match cs with
  | [] => none
  | c :: rest =>
    if c = '+' then (digitsVal rest).map (fun n => (n : Int))
    else if c = '-' then (digitsVal rest).map (fun n => -(n : Int))
    else (digitsVal cs).map (fun n => (n : Int))

/-- `i64::from_str` for the exponent part: a signed digit run whose
value must fit in a 64-bit signed integer. -/
def i64FromStr (cs : List Char) : Option Int :=
  (bigIntFromStr cs).bind (fun v =>
    if -(2 ^ 63) ≤ v ∧ v ≤ 2 ^ 63 - 1 then some v else none)

/-- `str::find` followed by the two slices around the found character:
`some (before, after)` for the first character satisfying `p`. -/
def splitFirst (p : Char → Bool) : List Char → Option (List Char × List Char)
  | [] => none
  | c :: rest =>
    if p c then some ([], rest)
    else (splitFirst p rest).map (fun q => (c :: q.1, q.2))

/-- The exponent separators of `BigDecimal::from_str_radix`. -/
def isExpChar (c : Char) : Bool :=
  c = 'e' || c = 'E'

/-- The decimal-point split of `from_str_radix`: the digit string is
the concatenation of the two sides of the first `.`, the offset is the
fractional length. -/
def dotSplit (base : List Char) : List Char × Int :=
  match splitFirst (fun c => c = '.') base with
  | none => (base, 0)
  | some q => (q.1 ++ q.2, (q.2.length : Int))

/-- The base-and-exponent assembly of `from_str_radix`: reject an empty
base, split it on the first `.`, parse the digit concatenation as a
`BigInt`; the scale is the fractional length minus the exponent. -/
def bigDecFromBase (base : List Char) (expv : Int) : Option BigDec :=
  if base.isEmpty then none
  else
    match bigIntFromStr (dotSplit base).1 with
    | none => none
    | some m => some ⟨m, (dotSplit base).2 - expv⟩

/-- `BigDecimal::from_str` (through `from_str_radix` with radix 10):
split on the first `e`/`E`, parse the exponent as `i64`, and assemble
the base with that exponent. -/
def bigDecFromStr (cs : List Char) : Option BigDec :=
  match splitFirst isExpChar cs with
  | none => bigDecFromBase cs 0
  | some q =>
    match i64FromStr q.2 with
    | none => none
    | some v => bigDecFromBase q.1 v

/-- `impl FromStr for Num` (`src/brc20/num.rs`): reject a leading `.`,
parse as `BigDecimal`, reject sign `Minus`, reject
`scale > MAX_DECIMAL_WIDTH`. -/
def numFromStr (cs : List Char) : Except BRC20Error Num :=
  if cs.head? = some '.' then .error (.InvalidNum (String.mk cs))
  else
    match bigDecFromStr cs with
    | none => .error (.InvalidNum (String.mk cs))
    | some d =>
      if d.int_val < 0 then .error (.InvalidNum (String.mk cs))
      else if MAX_DECIMAL_WIDTH < d.scale then .error (.InvalidNum (String.mk cs))
      else .ok ⟨d⟩

/-- `impl Deserialize for Num` (`src/brc20/num.rs`): read the JSON
string and parse it with `BigDecimal::from_str` only — no leading-dot,
sign, or scale validation. -/
def numDeserialize (cs : List Char) : Except String Num :=
  match bigDecFromStr cs with
  | none => .error (String.mk cs)
  | some d => .ok ⟨d⟩

/-- `impl Display for BigDecimal`: render the absolute mantissa in
decimal, place the point according to `scale` (padding with zeros on
either side), and prepend the sign. The scale is preserved as-is —
no trailing-zero stripping. -/
def bdDisplay (d : BigDec) : List Char :=
  let absInt := Nat.toDigits 10 d.int_val.natAbs
  let len : Int := absInt.length
  let body :=
    if len ≤ d.scale then
      '0' :: '.' :: (List.replicate (d.scale - len).toNat '0' ++ absInt)
    else
      let location := len - d.scale
      if len < location then
        absInt ++ List.replicate (location - len).toNat '0'
      else
        let after := absInt.drop location.toNat
        if after.isEmpty then absInt
        else absInt.take location.toNat ++ '.' :: after
  if d.int_val < 0 then '-' :: body else body

/-- `impl Display for Num` delegates to the inner `BigDecimal`. -/
def numToString (n : Num) : String :=
  String.mk (bdDisplay n.bd)

/-- The JSON decode errors observed in
`src/okx/protocol/brc30/operation/transfer.rs` tests and named by the
spec's decoding contract. -/
inductive JSONError where
  | ParseOperationJsonError (msg : String)
  | UnknownOperation
  deriving Repr, DecidableEq

/-- `Transfer` (`src/okx/protocol/brc30/operation/transfer.rs`): fields
`tick_id`, `tick`, `amount`, serde-renamed to `tid`, `tick`, `amt`. -/
structure Transfer where
  tick_id : String
  tick : String
  amount : String
  deriving Repr, DecidableEq

/-- The decoded operation. Modelled from the spec: the `Operation` enum
(`operation/mod.rs`) is not under `src/`; only the `transfer` variant,
whose payload struct is under `src/`, is embedded — every other
discriminant falls to the spec's `UnknownOperation`. -/
inductive Operation where
  | Transfer (t : Transfer)
  deriving Repr, DecidableEq

/-- A JSON object as the textual sequence of its key/value entries
(values restricted to strings, which is all the `Transfer` payload
uses). -/
abbrev JObj := List (String × String)

/-- Map insert as performed by the `serde_json::Value` object being
built while parsing: replace the value if the key is present, append
otherwise. -/
def objInsert : JObj → String → String → JObj
  | [], k, v => [(k, v)]
  | p :: m, k, v => if p.1 = k then (k, v) :: m else p :: objInsert m k v

/-- Build the `serde_json::Value` object from the textual entry
sequence: fold the inserts in order. -/
def buildObj (entries : JObj) : JObj :=
  entries.foldl (fun m kv => objInsert m kv.1 kv.2) []

/-- Field lookup on the built object. -/
def objGet (m : JObj) (k : String) : Option String :=
  (m.find? (fun p => p.1 = k)).map (fun p => p.2)

/-- The value of the last occurrence of a key in the textual entry
sequence — the spec's "last occurrence wins" reading, used to compare
the decoder against. -/
def lastOcc (entries : JObj) (k : String) : Option String :=
  (entries.filter (fun p => p.1 = k)).getLast?.map (fun p => p.2)

/-- Derived `Deserialize` for `Transfer` applied to the object: each
field is read under its serde rename, and a missing field errors with
serde's `missing field` message for the first missing field in
declaration order (`tid`, `tick`, `amt`). -/
def decodeTransfer (m : JObj) : Except JSONError Transfer :=
  match objGet m "tid" with
  | none => .error (.ParseOperationJsonError "missing field `tid`")
  | some tid =>
    match objGet m "tick" with
    | none => .error (.ParseOperationJsonError "missing field `tick`")
    | some tick =>
      match objGet m "amt" with
      | none => .error (.ParseOperationJsonError "missing field `amt`")
      | some amt => .ok ⟨tid, tick, amt⟩

/-- Modelled from the spec: `deserialize_brc30` (`operation/mod.rs`) is
not under `src/`. Per the spec's decoding contract, the payload is
parsed into a JSON object (duplicate keys collapse, last write wins),
the `op` discriminant selects the variant (unknown or missing
discriminant fails with `UnknownOperation`), and the variant's struct
is decoded from the object with serde field semantics. -/
def deserialize_brc30 (entries : JObj) : Except JSONError Operation :=
  match objGet (buildObj entries) "op" with
  | none => .error .UnknownOperation
  | some opName =>
    if opName = "transfer" then
      (decodeTransfer (buildObj entries)).map Operation.Transfer
    else .error .UnknownOperation

/-- `brc20_store::OperationType`, as matched in
`src/subcommand/server/brc20/receipt.rs`. -/
inductive OperationType where
  | Deploy
  | Mint
  | InscribeTransfer
  | Transfer
  deriving Repr, DecidableEq

/-- The store-side deploy event, modelled from the fields read by the
conversion in `receipt.rs` (the store types live outside `src/`;
displayed fields are kept as strings). -/
structure StoreDeployEvent where
  tick : String
  supply : String
  limit_per_mint : String
  decimal : Nat
  deriving Repr, DecidableEq

/-- The store-side mint event as read by the conversion. -/
structure StoreMintEvent where
  tick : String
  amount : String
  msg : Option String
  deriving Repr, DecidableEq

/-- The store-side inscribe-transfer event as read by the conversion. -/
structure StoreInscribeTransferEvent where
  tick : String
  amount : String
  deriving Repr, DecidableEq

/-- The store-side transfer event as read by the conversion. -/
structure StoreTransferEvent where
  tick : String
  amount : String
  msg : Option String
  deriving Repr, DecidableEq

/-- `brc20_store::Event`, the success payload of a receipt. -/
inductive StoreEvent where
  | Deploy (e : StoreDeployEvent)
  | Mint (e : StoreMintEvent)
  | InscribeTransfer (e : StoreInscribeTransferEvent)
  | Transfer (e : StoreTransferEvent)
  deriving Repr, DecidableEq

/-- `brc20_store::Receipt`, modelled from the fields the conversion
reads; the error side of `result` is its display string. -/
structure Receipt where
  inscription_id : String
  inscription_number : Int
  old_satpoint : String
  new_satpoint : String
  sender : String
  receiver : String
  op : OperationType
  result : Except String StoreEvent
  deriving Repr

/-- `DeployEvent` of the query API (`receipt.rs`). -/
structure DeployEvent where
  event : String
  tick : String
  inscription_id : String
  inscription_number : Int
  old_satpoint : String
  new_satpoint : String
  supply : String
  limit_per_mint : String
  decimal : Nat
  fromAddr : String
  toAddr : String
  valid : Bool
  msg : String
  deriving Repr, DecidableEq

/-- `MintEvent` of the query API. -/
structure MintEvent where
  event : String
  tick : String
  inscription_id : String
  inscription_number : Int
  old_satpoint : String
  new_satpoint : String
  amount : String
  fromAddr : String
  toAddr : String
  valid : Bool
  msg : String
  deriving Repr, DecidableEq

/-- `InscribeTransferEvent` of the query API. -/
structure InscribeTransferEvent where
  event : String
  tick : String
  inscription_id : String
  inscription_number : Int
  old_satpoint : String
  new_satpoint : String
  amount : String
  fromAddr : String
  toAddr : String
  valid : Bool
  msg : String
  deriving Repr, DecidableEq

/-- `TransferEvent` of the query API. -/
structure TransferEvent where
  event : String
  tick : String
  inscription_id : String
  inscription_number : Int
  old_satpoint : String
  new_satpoint : String
  amount : String
  fromAddr : String
  toAddr : String
  valid : Bool
  msg : String
  deriving Repr, DecidableEq

/-- `ErrorEvent` of the query API. -/
structure ErrorEvent where
  event : String
  inscription_id : String
  inscription_number : Int
  old_satpoint : String
  new_satpoint : String
  fromAddr : String
  toAddr : String
  valid : Bool
  msg : String
  deriving Repr, DecidableEq

/-- `TxEvent`, the client-facing event union of the query API. -/
inductive TxEvent where
  | Deploy (e : DeployEvent)
  | Mint (e : MintEvent)
  | InscribeTransfer (e : InscribeTransferEvent)
  | Transfer (e : TransferEvent)
  | Error (e : ErrorEvent)
  deriving Repr, DecidableEq

/-- The operation-kind string used for the error case's `type` field. -/
def opKindStr : OperationType → String
  | .Deploy => "deploy"
  | .Mint => "mint"
  | .InscribeTransfer => "inscribeTransfer"
  | .Transfer => "transfer"

/-- `impl From<&brc20_store::Receipt> for TxEvent` (`receipt.rs`):
the success variants echo the receipt context with `valid = true`; the
error variant carries `valid = false`, the error's message, and the
receipt's operation kind as its `type`. -/
def txEventFromReceipt (r : Receipt) : TxEvent :=
  match r.result with
  | .ok (.Deploy de) =>
    .Deploy ⟨"deploy", de.tick, r.inscription_id, r.inscription_number,
      r.old_satpoint, r.new_satpoint, de.supply, de.limit_per_mint,
      de.decimal, r.sender, r.receiver, true, "ok"⟩
  | .ok (.Mint me) =>
    .Mint ⟨"mint", me.tick, r.inscription_id, r.inscription_number,
      r.old_satpoint, r.new_satpoint, me.amount, r.sender, r.receiver,
      true, me.msg.getD "ok"⟩
  | .ok (.InscribeTransfer te) =>
    .InscribeTransfer ⟨"inscribeTransfer", te.tick, r.inscription_id,
      r.inscription_number, r.old_satpoint, r.new_satpoint, te.amount,
      r.sender, r.receiver, true, "ok"⟩
  | .ok (.Transfer te) =>
    .Transfer ⟨"transfer", te.tick, r.inscription_id,
      r.inscription_number, r.old_satpoint, r.new_satpoint, te.amount,
      r.sender, r.receiver, true, te.msg.getD "ok"⟩
  | .error err =>
    .Error ⟨opKindStr r.op, r.inscription_id, r.inscription_number,
      r.old_satpoint, r.new_satpoint, r.sender, r.receiver, false, err⟩

/-- The `valid` field of a `TxEvent`. -/
def TxEvent.valid : TxEvent → Bool
  | .Deploy e => e.valid
  | .Mint e => e.valid
  | .InscribeTransfer e => e.valid
  | .Transfer e => e.valid
  | .Error e => e.valid

/-- The `msg` field of a `TxEvent`. -/
def TxEvent.msg : TxEvent → String
  | .Deploy e => e.msg
  | .Mint e => e.msg
  | .InscribeTransfer e => e.msg
  | .Transfer e => e.msg
  | .Error e => e.msg

/-- The `type` field of a `TxEvent`. -/
def TxEvent.eventType : TxEvent → String
  | .Deploy e => e.event
  | .Mint e => e.event
  | .InscribeTransfer e => e.event
  | .Transfer e => e.event
  | .Error e => e.event

/-- The `inscription_id` field of a `TxEvent`. -/
def TxEvent.inscriptionId : TxEvent → String
  | .Deploy e => e.inscription_id
  | .Mint e => e.inscription_id
  | .InscribeTransfer e => e.inscription_id
  | .Transfer e => e.inscription_id
  | .Error e => e.inscription_id

/-- The `old_satpoint` field of a `TxEvent`. -/
def TxEvent.oldSatpoint : TxEvent → String
  | .Deploy e => e.old_satpoint
  | .Mint e => e.old_satpoint
  | .InscribeTransfer e => e.old_satpoint
  | .Transfer e => e.old_satpoint
  | .Error e => e.old_satpoint

/-- The `new_satpoint` field of a `TxEvent`. -/
def TxEvent.newSatpoint : TxEvent → String
  | .Deploy e => e.new_satpoint
  | .Mint e => e.new_satpoint
  | .InscribeTransfer e => e.new_satpoint
  | .Transfer e => e.new_satpoint
  | .Error e => e.new_satpoint

/-- The `from` field of a `TxEvent`. -/
def TxEvent.fromField : TxEvent → String
  | .Deploy e => e.fromAddr
  | .Mint e => e.fromAddr
  | .InscribeTransfer e => e.fromAddr
  | .Transfer e => e.fromAddr
  | .Error e => e.fromAddr

/-- The `to` field of a `TxEvent`. -/
def TxEvent.toField : TxEvent → String
  | .Deploy e => e.toAddr
  | .Mint e => e.toAddr
  | .InscribeTransfer e => e.toAddr
  | .Transfer e => e.toAddr
  | .Error e => e.toAddr

theorem bdVal_powLoop (b : BigDec) (k : Nat) :
    bdVal (bdPowLoop b k) = bdVal b ^ (k + 1) := by
  induction k with
  | zero => simp [bdPowLoop]
  | succ k ih =>
    rw [bdPowLoop, bdVal_mul, ih, ← pow_succ]

/-- C2: for every `Num` `n` (zero or not), `checked_powu(n, 0)` returns
the zero `BigDecimal` — the protocol quirk, not the mathematical
identity 1 — and for every exponent `e ≥ 1` the result is the exact
decimal power of `n`, with no rounding. -/
theorem checked_powu_zero_quirk_exact :
    (∀ n : Num, Num.checked_powu n 0 = .ok ⟨⟨0, 0⟩⟩) ∧
    (∀ (n : Num) (e : Nat), 1 ≤ e →
      ∃ r, Num.checked_powu n e = .ok r ∧ bdVal r.bd = bdVal n.bd ^ e) := by
  constructor
  · intro n
    rfl
  · intro n e he
    match e, he with
    | 1, _ => exact ⟨n, rfl, (pow_one _).symm⟩
    | (k + 2), _ =>
      refine ⟨⟨bdPowLoop n.bd (k + 1)⟩, rfl, ?_⟩
      exact bdVal_powLoop n.bd (k + 1)

/-- Witness for C2 at `n = 3.7`, `e = 2`. -/
theorem checked_powu_zero_quirk_exact_witness :
    Num.checked_powu ⟨⟨37, 1⟩⟩ 0 = .ok ⟨⟨0, 0⟩⟩ ∧
    ∃ r, Num.checked_powu ⟨⟨37, 1⟩⟩ 2 = .ok r ∧
      bdVal r.bd = bdVal (⟨37, 1⟩ : BigDec) ^ 2 :=
  ⟨checked_powu_zero_quirk_exact.1 ⟨⟨37, 1⟩⟩,
    checked_powu_zero_quirk_exact.2 ⟨⟨37, 1⟩⟩ 2 (by norm_num)⟩

/-- C10: the client-facing `TxEvent` built from a `Receipt` has
`valid = true` exactly on a success result (echoing inscription id,
satpoints, sender and receiver unchanged), and on an error result has
`valid = false`, `msg` equal to the error's message, and its `type`
equal to the receipt's operation kind. -/
theorem txevent_from_receipt_faithful (r : Receipt) :
    match r.result with
    | .ok _ =>
      (txEventFromReceipt r).valid = true ∧
      (txEventFromReceipt r).inscriptionId = r.inscription_id ∧
      (txEventFromReceipt r).oldSatpoint = r.old_satpoint ∧
      (txEventFromReceipt r).newSatpoint = r.new_satpoint ∧
      (txEventFromReceipt r).fromField = r.sender ∧
      (txEventFromReceipt r).toField = r.receiver
    | .error e =>
      (txEventFromReceipt r).valid = false ∧
      (txEventFromReceipt r).msg = e ∧
      (txEventFromReceipt r).eventType = opKindStr r.op := by
  rcases r with ⟨iid, inum, osp, nsp, snd, rcv, op, result⟩
  match result with
  | .ok (.Deploy de) => exact ⟨rfl, rfl, rfl, rfl, rfl, rfl⟩
  | .ok (.Mint me) => exact ⟨rfl, rfl, rfl, rfl, rfl, rfl⟩
  | .ok (.InscribeTransfer te) => exact ⟨rfl, rfl, rfl, rfl, rfl, rfl⟩
  | .ok (.Transfer te) => exact ⟨rfl, rfl, rfl, rfl, rfl, rfl⟩
  | .error e => exact ⟨rfl, rfl, rfl⟩

/-- C1 counterexample: at `a = 0`, `b = 1` the subtraction fails, but
the error produced is the shared `Overflow` variant tagged with the
operation name `"checked_sub"` — there is no `Underflow` error in the
code. -/
theorem checked_sub_error_variant_cex :
    Num.checked_sub ⟨⟨0, 0⟩⟩ ⟨⟨1, 0⟩⟩
      = .error (.Overflow "checked_sub" ⟨⟨0, 0⟩⟩ ⟨⟨1, 0⟩⟩) := rfl

/-- C1 (amended): `checked_sub(a, b)` fails exactly when `a < b`, the
failure being the `Overflow` variant with operation name
`"checked_sub"` carrying both operands; when `a ≥ b` it returns the
exact difference. -/
theorem checked_sub_underflow_guard (a b : Num) :
    (bdVal a.bd < bdVal b.bd →
      Num.checked_sub a b = .error (.Overflow "checked_sub" a b)) ∧
    (bdVal b.bd ≤ bdVal a.bd →
      ∃ r, Num.checked_sub a b = .ok r ∧
        bdVal r.bd = bdVal a.bd - bdVal b.bd) := by
  constructor
  · intro h
    have hlt : bdLt a.bd b.bd = true := (bdLt_iff_val _ _).2 h
    simp [Num.checked_sub, hlt]
  · intro h
    have hlt : ¬ (bdLt a.bd b.bd = true) := fun hc =>
      absurd ((bdLt_iff_val _ _).1 hc) (not_lt.2 h)
    refine ⟨⟨bdSub a.bd b.bd⟩, ?_, bdVal_sub a.bd b.bd⟩
    simp [Num.checked_sub, hlt]

/-- Witness for C1 at `a = 3`, `b = 1`. -/
theorem checked_sub_underflow_guard_witness :
    ∃ r, Num.checked_sub ⟨⟨3, 0⟩⟩ ⟨⟨1, 0⟩⟩ = .ok r ∧
      bdVal r.bd = bdVal (⟨3, 0⟩ : BigDec) - bdVal (⟨1, 0⟩ : BigDec) :=
  (checked_sub_underflow_guard ⟨⟨3, 0⟩⟩ ⟨⟨1, 0⟩⟩).2 (by norm_num [bdVal])

/-- C8 counterexample: the negative `Num` deserialized from `"-1"` is a
`Num` value for which `checked_sub(checked_add(a, b), b)` fails instead
of returning `a`. -/
theorem add_sub_roundtrip_cex :
    numDeserialize "-1".data = .ok ⟨⟨-1, 0⟩⟩ ∧
    Num.checked_add ⟨⟨-1, 0⟩⟩ ⟨⟨1, 0⟩⟩ = .ok ⟨⟨0, 0⟩⟩ ∧
    Num.checked_sub ⟨⟨0, 0⟩⟩ ⟨⟨1, 0⟩⟩
      = .error (.Overflow "checked_sub" ⟨⟨0, 0⟩⟩ ⟨⟨1, 0⟩⟩) :=
  ⟨rfl, rfl, rfl⟩

/-- C8 (amended): for every non-negative `a` (as all validly
constructed `Num`s are) and every `b`, `checked_add(a, b)` succeeds and
`checked_sub(checked_add(a, b), b)` returns exactly `a` — equality in
the `Num` sense, with no rounding drift. -/
theorem add_sub_roundtrip_amended (a b : Num) (h : 0 ≤ bdVal a.bd) :
    ∃ c r, Num.checked_add a b = .ok c ∧ Num.checked_sub c b = .ok r ∧
      bdEq r.bd a.bd = true := by
  refine ⟨⟨bdAdd a.bd b.bd⟩, ⟨bdSub (bdAdd a.bd b.bd) b.bd⟩, rfl, ?_, ?_⟩
  · have hv : ¬ bdVal (bdAdd a.bd b.bd) < bdVal b.bd := by
      rw [bdVal_add]
      linarith
    have hlt : ¬ (bdLt (bdAdd a.bd b.bd) b.bd = true) := fun hc =>
      hv ((bdLt_iff_val _ _).1 hc)
    simp [Num.checked_sub, hlt]
  · rw [bdEq_iff_val, bdVal_sub, bdVal_add]
    ring

/-- Witness for C8 at `a = 1`, `b = 2`. -/
theorem add_sub_roundtrip_amended_witness :
    ∃ c r, Num.checked_add ⟨⟨1, 0⟩⟩ ⟨⟨2, 0⟩⟩ = .ok c ∧
      Num.checked_sub c ⟨⟨2, 0⟩⟩ = .ok r ∧
      bdEq r.bd (⟨1, 0⟩ : BigDec) = true :=
  add_sub_roundtrip_amended ⟨⟨1, 0⟩⟩ ⟨⟨2, 0⟩⟩ (by norm_num [bdVal])

theorem bdTrunc_zero (d : BigDec) (h : d.int_val = 0) : bdTrunc d = 0 := by
  unfold bdTrunc
  rw [h]
  split
  · exact Int.zero_tdiv _
  · exact zero_mul _

theorem bdTrunc_nonneg (d : BigDec) (h : 0 ≤ d.int_val) : 0 ≤ bdTrunc d := by
  unfold bdTrunc
  split
  · exact Int.tdiv_nonneg h (by positivity)
  · exact mul_nonneg h (by positivity)

/-- C9 counterexample: `255.5` exceeds the `u8` range yet `to_u8`
succeeds (with the truncated value 255) — the conversions truncate
before the range check. -/
theorem to_u8_exceeds_cex :
    bdLt ⟨255, 0⟩ ⟨2555, 1⟩ = true ∧
    Num.checked_to_u8 ⟨⟨2555, 1⟩⟩ = .ok 255 :=
  ⟨by decide, rfl⟩

/-- On a non-negative mantissa, `to_u8` is exactly "truncate, then
range-check against 255". -/
theorem bdToU8_eq (d : BigDec) (h : 0 ≤ d.int_val) :
    bdToU8 d = if bdTrunc d ≤ 255 then some (bdTrunc d).toNat else none := by
  unfold bdToU8 bdToU64
  by_cases h0 : d.int_val = 0
  · have hz : bdTrunc d = 0 := bdTrunc_zero d h0
    rw [if_neg (not_lt.2 h), if_pos h0, hz]
    simp
  · have ht := bdTrunc_nonneg d h
    rw [if_neg (not_lt.2 h), if_neg h0, if_neg (not_lt.2 ht)]
    by_cases h64 : bdTrunc d ≤ 2 ^ 64 - 1
    · rw [if_pos h64, Option.some_bind]
      by_cases h255 : bdTrunc d ≤ 255
      · rw [if_pos (by omega : (bdTrunc d).toNat ≤ 255), if_pos h255]
      · rw [if_neg (by omega : ¬ (bdTrunc d).toNat ≤ 255), if_neg h255]
    · rw [if_neg h64, Option.none_bind, if_neg (by omega : ¬ bdTrunc d ≤ 255)]

/-- C9 (amended): on a non-negative `Num`, `to_u8`/`to_u128` truncate
the value toward zero and fail with `Overflow{op, original, limit}`
exactly when the truncated integer part exceeds the target's maximum,
succeeding with the truncated value otherwise. -/
theorem to_u8_u128_trunc_amended (n : Num) (h : 0 ≤ n.bd.int_val) :
    (bdTrunc n.bd ≤ 255 → Num.checked_to_u8 n = .ok (bdTrunc n.bd).toNat) ∧
    (255 < bdTrunc n.bd →
      Num.checked_to_u8 n = .error (.Overflow "to_u8" n ⟨⟨255, 0⟩⟩)) ∧
    (bdTrunc n.bd ≤ 2 ^ 128 - 1 →
      Num.checked_to_u128 n = .ok (bdTrunc n.bd).toNat) ∧
    (2 ^ 128 - 1 < bdTrunc n.bd →
      Num.checked_to_u128 n = .error (.Overflow "to_u128" n ⟨⟨2 ^ 128 - 1, 0⟩⟩)) := by
  have ht := bdTrunc_nonneg n.bd h
  have h8 := bdToU8_eq n.bd h
  refine ⟨?_, ?_, ?_, ?_⟩
  · intro hle
    unfold Num.checked_to_u8
    rw [h8, if_pos hle]
  · intro hgt
    unfold Num.checked_to_u8
    rw [h8, if_neg (by omega : ¬ bdTrunc n.bd ≤ 255)]
  · intro hle
    unfold Num.checked_to_u128
    rw [if_pos ⟨ht, hle⟩]
  · intro hgt
    unfold Num.checked_to_u128
    rw [if_neg (by omega : ¬ (0 ≤ bdTrunc n.bd ∧ bdTrunc n.bd ≤ 2 ^ 128 - 1))]

set_option maxRecDepth 4000 in
/-- Witness for C9 at `n = 255.5` (truncates to 255, in range for both
targets). -/
theorem to_u8_u128_trunc_amended_witness :
    Num.checked_to_u8 ⟨⟨2555, 1⟩⟩ = .ok (bdTrunc ⟨2555, 1⟩).toNat ∧
    Num.checked_to_u128 ⟨⟨2555, 1⟩⟩ = .ok (bdTrunc ⟨2555, 1⟩).toNat :=
  ⟨(to_u8_u128_trunc_amended ⟨⟨2555, 1⟩⟩ (by decide)).1 (by decide),
    (to_u8_u128_trunc_amended ⟨⟨2555, 1⟩⟩ (by decide)).2.2.1 (by decide)⟩

/-- C7 counterexample: serde deserialization performs no validation —
`"-1.5"` deserializes to a negative `Num`, and a 19-fractional-digit
string deserializes to a `Num` with scale 19. -/
theorem num_deserialize_unvalidated_cex :
    numDeserialize "-1.5".data = .ok ⟨⟨-15, 1⟩⟩ ∧
    ((⟨⟨-15, 1⟩⟩ : Num).bd.int_val < 0) ∧
    numDeserialize "1.0000000000000000001".data
      = .ok ⟨⟨10000000000000000001, 19⟩⟩ ∧
    (MAX_DECIMAL_WIDTH < (⟨⟨10000000000000000001, 19⟩⟩ : Num).bd.scale) :=
  ⟨rfl, by decide, rfl, by decide⟩

/-- C7 (amended): every `Num` produced by validated string parsing is
non-negative with scale at most 18, and checked add/sub preserve this
invariant; serde deserialization (which skips validation) and
`checked_mul`/`checked_powu` (which grow the scale) are excluded. -/
theorem num_invariant_amended :
    (∀ (cs : List Char) (n : Num), numFromStr cs = .ok n →
      0 ≤ n.bd.int_val ∧ n.bd.scale ≤ MAX_DECIMAL_WIDTH) ∧
    (∀ a b : Num, 0 ≤ a.bd.int_val → a.bd.scale ≤ MAX_DECIMAL_WIDTH →
      0 ≤ b.bd.int_val → b.bd.scale ≤ MAX_DECIMAL_WIDTH →
      (∃ c, Num.checked_add a b = .ok c ∧
        0 ≤ c.bd.int_val ∧ c.bd.scale ≤ MAX_DECIMAL_WIDTH) ∧
      (∀ r, Num.checked_sub a b = .ok r →
        0 ≤ r.bd.int_val ∧ r.bd.scale ≤ MAX_DECIMAL_WIDTH)) := by
  constructor
  · intro cs n h
    unfold numFromStr at h
    split at h
    · exact absurd h (by simp)
    · split at h
      · exact absurd h (by simp)
      · split at h
        · exact absurd h (by simp)
        · split at h
          · exact absurd h (by simp)
          · rename_i d hbd hneg hscale
            have hn : n = ⟨d⟩ := by
              injection h with h2
              exact h2.symm
            subst hn
            refine ⟨?_, ?_⟩
            · show 0 ≤ d.int_val
              omega
            · show d.scale ≤ MAX_DECIMAL_WIDTH
              omega
  · intro a b ha has hb hbs
    constructor
    · refine ⟨⟨bdAdd a.bd b.bd⟩, rfl, ?_, ?_⟩
      · have h1 : 0 ≤ alignMant a.bd (max a.bd.scale b.bd.scale) :=
          mul_nonneg ha (by positivity)
        have h2 : 0 ≤ alignMant b.bd (max a.bd.scale b.bd.scale) :=
          mul_nonneg hb (by positivity)
        show 0 ≤ alignMant a.bd _ + alignMant b.bd _
        omega
      · show max a.bd.scale b.bd.scale ≤ MAX_DECIMAL_WIDTH
        omega
    · intro r hr
      unfold Num.checked_sub at hr
      split at hr
      · exact absurd hr (by simp)
      · rename_i hnlt
        have hle : alignMant b.bd (max a.bd.scale b.bd.scale)
            ≤ alignMant a.bd (max a.bd.scale b.bd.scale) := by
          unfold bdLt at hnlt
          simpa using hnlt
        have hr2 : r = ⟨bdSub a.bd b.bd⟩ := by
          injection hr with h2
          exact h2.symm
        subst hr2
        refine ⟨?_, ?_⟩
        · show 0 ≤ alignMant a.bd _ - alignMant b.bd _
          omega
        · show max a.bd.scale b.bd.scale ≤ MAX_DECIMAL_WIDTH
          omega

/-- Witness for C7: the parse of `"1.5"` and add/sub at `1.5` and `2`. -/
theorem num_invariant_amended_witness :
    (0 ≤ (⟨⟨15, 1⟩⟩ : Num).bd.int_val ∧
      (⟨⟨15, 1⟩⟩ : Num).bd.scale ≤ MAX_DECIMAL_WIDTH) ∧
    ((∃ c, Num.checked_add ⟨⟨15, 1⟩⟩ ⟨⟨2, 0⟩⟩ = .ok c ∧
        0 ≤ c.bd.int_val ∧ c.bd.scale ≤ MAX_DECIMAL_WIDTH) ∧
      (∀ r, Num.checked_sub ⟨⟨15, 1⟩⟩ ⟨⟨2, 0⟩⟩ = .ok r →
        0 ≤ r.bd.int_val ∧ r.bd.scale ≤ MAX_DECIMAL_WIDTH)) :=
  ⟨num_invariant_amended.1 "1.5".data ⟨⟨15, 1⟩⟩ rfl,
    num_invariant_amended.2 ⟨⟨15, 1⟩⟩ ⟨⟨2, 0⟩⟩ (by decide) (by decide)
      (by decide) (by decide)⟩

theorem objGet_objInsert (m : JObj) (k' v k : String) :
    objGet (objInsert m k' v) k = if k = k' then some v else objGet m k := by
  induction m with
  | nil =>
    by_cases hk : k = k'
    · subst hk
      simp [objInsert, objGet]
    · have hk2 : ¬ k' = k := fun h => hk h.symm
      simp [objInsert, objGet, hk, hk2]
  | cons p m ih =>
    unfold objInsert
    by_cases hp : p.1 = k'
    · rw [if_pos hp]
      by_cases hk : k = k'
      · subst hk
        simp [objGet]
      · have hpk : ¬ p.1 = k := fun h => hk (hp ▸ h).symm
        have hk2 : ¬ k' = k := fun h => hk h.symm
        simp only [objGet, List.find?]
        rw [show (decide (k' = k)) = false by simp [hk2],
          show (decide (p.1 = k)) = false by simp [hpk]]
        simp [hk]
    · rw [if_neg hp]
      by_cases hpk : p.1 = k
      · simp only [objGet, List.find?]
        rw [show (decide (p.1 = k)) = true by simp [hpk]]
        have hk : ¬ k = k' := fun h => hp (by rw [hpk, h])
        simp [hk]
      · simp only [objGet, List.find?]
        rw [show (decide (p.1 = k)) = false by simp [hpk]]
        exact ih

theorem lastOcc_append_single (es : JObj) (e : String × String) (k : String) :
    lastOcc (es ++ [e]) k = if k = e.1 then some e.2 else lastOcc es k := by
  unfold lastOcc
  rw [List.filter_append]
  by_cases he : e.1 = k
  · rw [show List.filter (fun p => decide (p.1 = k)) [e] = [e] by simp [he],
      List.getLast?_concat, if_pos he.symm]
    rfl
  · rw [show List.filter (fun p => decide (p.1 = k)) [e] = [] by simp [he],
      List.append_nil, if_neg (fun h : k = e.1 => he h.symm)]

theorem objGet_buildObj (entries : JObj) (k : String) :
    objGet (buildObj entries) k = lastOcc entries k := by
  induction entries using List.reverseRecOn with
  | nil => rfl
  | append_singleton es e ih =>
    have hb : buildObj (es ++ [e]) = objInsert (buildObj es) e.1 e.2 := by
      unfold buildObj
      rw [List.foldl_append]
      rfl
    rw [hb, objGet_objInsert, lastOcc_append_single, ih]

/-- C5: decoding an operation payload collapses duplicate keys with
last-write-wins semantics — the built object's lookup of every key is
the last occurrence's value in the payload — and the crafted payload
with two `tick` keys decodes without error to the second value. -/
theorem decode_duplicate_key_last_wins :
    (∀ (entries : JObj) (k : String),
      objGet (buildObj entries) k = lastOcc entries k) ∧
    deserialize_brc30
        [("p", "brc20-s"), ("op", "transfer"), ("tid", "tid"),
          ("tick", "tick-1"), ("tick", "tick-2"), ("amt", "amt")]
      = .ok (.Transfer ⟨"tid", "tick-2", "amt"⟩) :=
  ⟨objGet_buildObj, rfl⟩

/-- C6: decoding a payload that selects the transfer variant but has no
`tid` key fails with `ParseOperationJsonError` naming the missing
field `tid`. -/
theorem decode_missing_field_named (entries : JObj)
    (hop : objGet (buildObj entries) "op" = some "transfer")
    (htid : objGet (buildObj entries) "tid" = none) :
    deserialize_brc30 entries
      = .error (.ParseOperationJsonError "missing field `tid`") := by
  unfold deserialize_brc30
  rw [hop]
  simp only [if_pos rfl]
  unfold decodeTransfer
  rw [htid]
  rfl

/-- Witness for C6: the repository test's payload with `p`, `op`,
`tick`, `amt` but no `tid`. -/
theorem decode_missing_field_named_witness :
    deserialize_brc30
        [("p", "brc20-s"), ("op", "transfer"), ("tick", "tick"), ("amt", "amt")]
      = .error (.ParseOperationJsonError "missing field `tid`") :=
  decode_missing_field_named _ rfl rfl

theorem digitsValAux_some (cs : List Char) :
    ∀ acc, (∀ c ∈ cs, c.isDigit = true) → ∃ n, digitsValAux cs acc = some n := by
  induction cs with
  | nil =>
    intro acc _
    exact ⟨acc, rfl⟩
  | cons c rest ih =>
    intro acc h
    have hc := h c (List.mem_cons_self _ _)
    rw [digitsValAux, if_pos hc]
    exact ih _ (fun x hx => h x (List.mem_cons_of_mem _ hx))

theorem digitsVal_some (cs : List Char) (hne : cs ≠ [])
    (h : ∀ c ∈ cs, c.isDigit = true) : ∃ n, digitsVal cs = some n := by
  match cs, hne with
  | c :: rest, _ =>
    obtain ⟨n, hn⟩ := digitsValAux_some (c :: rest) 0 h
    exact ⟨n, hn⟩

theorem splitFirst_eq_none (p : Char → Bool) (cs : List Char)
    (h : ∀ c ∈ cs, p c = false) : splitFirst p cs = none := by
  induction cs with
  | nil => rfl
  | cons c rest ih =>
    rw [splitFirst, if_neg (by simp [h c (List.mem_cons_self _ _)]),
      ih (fun x hx => h x (List.mem_cons_of_mem _ hx))]
    rfl

theorem splitFirst_eq_some (p : Char → Bool) (pre post : List Char) (d : Char)
    (hpre : ∀ c ∈ pre, p c = false) (hd : p d = true) :
    splitFirst p (pre ++ d :: post) = some (pre, post) := by
  induction pre with
  | nil =>
    rw [List.nil_append, splitFirst, if_pos hd]
  | cons c pre' ih =>
    rw [List.cons_append, splitFirst,
      if_neg (by simp [hpre c (List.mem_cons_self _ _)]),
      ih (fun x hx => hpre x (List.mem_cons_of_mem _ hx))]
    rfl

theorem isDigit_facts (c : Char) (h : c.isDigit = true) :
    c ≠ '+' ∧ c ≠ '-' ∧ c ≠ '.' ∧ isExpChar c = false := by
  have h1 : c ≠ 'e' := fun he => by
    subst he
    exact absurd h (by decide)
  have h2 : c ≠ 'E' := fun he => by
    subst he
    exact absurd h (by decide)
  refine ⟨?_, ?_, ?_, by simp [isExpChar, h1, h2]⟩
  · intro he
    subst he
    exact absurd h (by decide)
  · intro he
    subst he
    exact absurd h (by decide)
  · intro he
    subst he
    exact absurd h (by decide)

theorem bigDecFromStr_grammar (sg ip fp : List Char) (dotted : Bool)
    (hsg : sg = [] ∨ sg = ['+'] ∨ sg = ['-'])
    (hip : ip ≠ []) (hipd : ∀ c ∈ ip, c.isDigit = true)
    (hfpd : ∀ c ∈ fp, c.isDigit = true)
    (hdot : dotted = false → fp = []) :
    ∃ n : Nat, digitsVal (ip ++ fp) = some n ∧
      bigDecFromStr (sg ++ ip ++ (if dotted then '.' :: fp else []))
        = some ⟨if sg = ['-'] then -(n : Int) else (n : Int), (fp.length : Int)⟩ := by
  have hipfp : ip ++ fp ≠ [] := fun h => hip (List.append_eq_nil.1 h).1
  have hipfpd : ∀ c ∈ ip ++ fp, c.isDigit = true := by
    intro c hc
    rcases List.mem_append.1 hc with h | h
    · exact hipd c h
    · exact hfpd c h
  obtain ⟨n, hn⟩ := digitsVal_some (ip ++ fp) hipfp hipfpd
  refine ⟨n, hn, ?_⟩
  have hsgchars : ∀ c ∈ sg, c = '+' ∨ c = '-' := by
    intro c hc
    rcases hsg with rfl | rfl | rfl
    · exact absurd hc (List.not_mem_nil c)
    · exact Or.inl (List.mem_singleton.1 hc)
    · exact Or.inr (List.mem_singleton.1 hc)
  have hnoexp : ∀ c ∈ sg ++ ip ++ (if dotted then '.' :: fp else []),
      isExpChar c = false := by
    intro c hc
    rcases List.mem_append.1 hc with h | h
    · rcases List.mem_append.1 h with h2 | h2
      · rcases hsgchars c h2 with rfl | rfl
        · decide
        · decide
      · exact (isDigit_facts c (hipd c h2)).2.2.2
    · cases dotted with
      | false => exact absurd h (by simp)
      | true =>
        rcases List.mem_cons.1 (by simpa using h) with rfl | h3
        · decide
        · exact (isDigit_facts c (hfpd c h3)).2.2.2
  have hsplit : splitFirst isExpChar
      (sg ++ ip ++ (if dotted then '.' :: fp else [])) = none :=
    splitFirst_eq_none isExpChar _ hnoexp
  have hne2 : (sg ++ ip ++ (if dotted then '.' :: fp else [])) ≠ [] := by
    intro h
    exact hip (List.append_eq_nil.1 (List.append_eq_nil.1 h).1).2
  have hnodot : ∀ c ∈ sg ++ ip, (decide (c = '.')) = false := by
    intro c hc
    rcases List.mem_append.1 hc with h | h
    · rcases hsgchars c h with rfl | rfl
      · decide
      · decide
    · simp [(isDigit_facts c (hipd c h)).2.2.1]
  have hdsp : dotSplit (sg ++ ip ++ (if dotted then '.' :: fp else []))
      = ((sg ++ ip) ++ fp, (fp.length : Int)) := by
    cases dotted with
    | true =>
      rw [if_pos rfl, dotSplit,
        splitFirst_eq_some (fun c => decide (c = '.')) (sg ++ ip) fp '.'
          hnodot (by decide)]
    | false =>
      rw [hdot rfl, if_neg (by simp), dotSplit,
        splitFirst_eq_none (fun c => decide (c = '.')) ((sg ++ ip) ++ [])
          (by
            intro c hc
            rw [List.append_nil] at hc
            exact hnodot c hc)]
      rfl
  have hbi : bigIntFromStr ((sg ++ ip) ++ fp)
      = some (if sg = ['-'] then -(n : Int) else (n : Int)) := by
    rcases hsg with rfl | rfl | rfl
    · match ip, hip, hipd, hn with
      | c :: ip', _, hipd, hn =>
        have hc := hipd c (List.mem_cons_self _ _)
        obtain ⟨hplus, hminus, _, _⟩ := isDigit_facts c hc
        show (if c = '+' then (digitsVal (ip' ++ fp)).map (fun k => (k : Int))
          else if c = '-' then (digitsVal (ip' ++ fp)).map (fun k => -(k : Int))
          else (digitsVal (c :: (ip' ++ fp))).map (fun k => (k : Int))) = _
        rw [if_neg hplus, if_neg hminus, ← List.cons_append, hn,
          if_neg (by decide : ¬ ([] : List Char) = ['-'])]
        rfl
    · show (if '+' = '+' then (digitsVal (ip ++ fp)).map (fun k => (k : Int))
        else if '+' = '-' then (digitsVal (ip ++ fp)).map (fun k => -(k : Int))
        else (digitsVal ('+' :: (ip ++ fp))).map (fun k => (k : Int))) = _
      rw [if_pos rfl, hn, if_neg (by decide : ¬ (['+'] : List Char) = ['-'])]
      rfl
    · show (if '-' = '+' then (digitsVal (ip ++ fp)).map (fun k => (k : Int))
        else if '-' = '-' then (digitsVal (ip ++ fp)).map (fun k => -(k : Int))
        else (digitsVal ('-' :: (ip ++ fp))).map (fun k => (k : Int))) = _
      rw [if_neg (by decide : ¬ ('-' : Char) = '+'), if_pos rfl, hn,
        if_pos (by decide : (['-'] : List Char) = ['-'])]
      rfl
  unfold bigDecFromStr
  rw [hsplit]
  show bigDecFromBase (sg ++ ip ++ (if dotted then '.' :: fp else [])) 0 = _
  unfold bigDecFromBase
  rw [if_neg (by simpa using hne2), hdsp]
  show (match bigIntFromStr ((sg ++ ip) ++ fp) with
    | none => none
    | some m => some (⟨m, (fp.length : Int) - 0⟩ : BigDec)) = _
  rw [hbi]
  show some (⟨if sg = ['-'] then -(n : Int) else (n : Int),
    (fp.length : Int) - 0⟩ : BigDec) = _
  rw [sub_zero]

theorem numFromStr_grammar (sg ip fp : List Char) (dotted : Bool)
    (hsg : sg = [] ∨ sg = ['+'] ∨ sg = ['-'])
    (hip : ip ≠ []) (hipd : ∀ c ∈ ip, c.isDigit = true)
    (hfpd : ∀ c ∈ fp, c.isDigit = true)
    (hdot : dotted = false → fp = []) :
    ∃ n : Nat, digitsVal (ip ++ fp) = some n ∧
      numFromStr (sg ++ ip ++ (if dotted then '.' :: fp else []))
        = if (sg = ['-'] ∧ n ≠ 0) ∨ MAX_DECIMAL_WIDTH < (fp.length : Int)
          then .error (.InvalidNum
            (String.mk (sg ++ ip ++ (if dotted then '.' :: fp else []))))
          else .ok ⟨⟨if sg = ['-'] then -(n : Int) else (n : Int),
            (fp.length : Int)⟩⟩ := by
  obtain ⟨n, hn, hbd⟩ :=
    bigDecFromStr_grammar sg ip fp dotted hsg hip hipd hfpd hdot
  refine ⟨n, hn, ?_⟩
  have hhead :
      ¬ ((sg ++ ip ++ (if dotted then '.' :: fp else [])).head? = some '.') := by
    rcases hsg with rfl | rfl | rfl
    · match ip, hip, hipd with
      | c :: ip', _, hipd =>
        intro h
        have hc := hipd c (List.mem_cons_self _ _)
        have hcd : c = '.' := by
          simpa using h
        exact (isDigit_facts c hc).2.2.1 hcd
    · intro h
      simp at h
    · intro h
      simp at h
  unfold numFromStr
  rw [if_neg hhead, hbd]
  show (if (if sg = ['-'] then -(n : Int) else (n : Int)) < 0 then
      Except.error (BRC20Error.InvalidNum
        (String.mk (sg ++ ip ++ (if dotted then '.' :: fp else []))))
    else if MAX_DECIMAL_WIDTH < (fp.length : Int) then
      Except.error (BRC20Error.InvalidNum
        (String.mk (sg ++ ip ++ (if dotted then '.' :: fp else []))))
    else Except.ok (⟨⟨if sg = ['-'] then -(n : Int) else (n : Int),
      (fp.length : Int)⟩⟩ : Num) : Except BRC20Error Num) = _
  have hsigniff :
      ((if sg = ['-'] then -(n : Int) else (n : Int)) < 0) ↔
        (sg = ['-'] ∧ n ≠ 0) := by
    by_cases hm : sg = ['-']
    · rw [if_pos hm]
      constructor
      · intro h
        exact ⟨hm, by omega⟩
      · rintro ⟨_, hnz⟩
        omega
    · rw [if_neg hm]
      constructor
      · intro h
        exact absurd h (not_lt.2 (Int.natCast_nonneg n))
      · rintro ⟨hm', _⟩
        exact absurd hm' hm
  by_cases h1 : sg = ['-'] ∧ n ≠ 0
  · rw [if_pos (hsigniff.2 h1), if_pos (Or.inl h1)]
  · rw [if_neg (fun hc => h1 (hsigniff.1 hc))]
    by_cases h2 : MAX_DECIMAL_WIDTH < (fp.length : Int)
    · rw [if_pos h2, if_pos (Or.inr h2)]
    · rw [if_neg h2]
      exact (if_neg (fun hc => Or.elim hc h1 h2)).symm

/-- C3 counterexample: `parse("1.1000").to_string()` is `"1.1000"`,
not the normalized `"1.1"` — display preserves the parsed scale and
does not strip trailing fractional zeros. -/
theorem parse_display_trailing_zeros_cex :
    Except.map numToString (numFromStr "1.1000".data) = .ok "1.1000" ∧
    ("1.1000" : String) ≠ "1.1" :=
  ⟨rfl, by decide⟩

/-- C3 (amended): every valid decimal string (a digit run, optionally a
dot and at most 18 fractional digits) parses successfully with scale
equal to the literal fractional width; `"1.1000"` and `"1.1"` parse to
equal `Num`s under the scale-aligned `Num` equality; but `to_string`
reproduces the fractional width — trailing zeros are preserved, not
stripped: `parse("1.1000").to_string() = "1.1000"`. -/
theorem parse_roundtrip_amended :
    (∀ (ip fp : List Char) (dotted : Bool), ip ≠ [] →
      (∀ c ∈ ip, c.isDigit = true) → (∀ c ∈ fp, c.isDigit = true) →
      (dotted = false → fp = []) →
      (fp.length : Int) ≤ MAX_DECIMAL_WIDTH →
      ∃ n : Num, numFromStr (ip ++ (if dotted then '.' :: fp else []))
          = .ok n ∧ n.bd.scale = fp.length) ∧
    numFromStr "1.1000".data = .ok ⟨⟨11000, 4⟩⟩ ∧
    numFromStr "1.1".data = .ok ⟨⟨11, 1⟩⟩ ∧
    bdEq ⟨11000, 4⟩ ⟨11, 1⟩ = true ∧
    Except.map numToString (numFromStr "1.1000".data) = .ok "1.1000" := by
  refine ⟨?_, rfl, rfl, by decide, rfl⟩
  intro ip fp dotted hip hipd hfpd hdot hlen
  obtain ⟨n, _, hns⟩ :=
    numFromStr_grammar [] ip fp dotted (Or.inl rfl) hip hipd hfpd hdot
  rw [List.nil_append] at hns
  rw [hns, if_neg (fun hc => Or.elim hc
    (fun h => List.noConfusion h.1)
    (fun h => absurd hlen (not_le.2 h)))]
  exact ⟨_, rfl, rfl⟩

/-- Witness for C3 at the string `"1.1000"` (`ip = "1"`,
`fp = "1000"`). -/
theorem parse_roundtrip_amended_witness :
    ∃ n : Num,
      numFromStr (['1'] ++ (if true then '.' :: ['1', '0', '0', '0'] else []))
        = .ok n ∧ n.bd.scale = (['1', '0', '0', '0'] : List Char).length :=
  parse_roundtrip_amended.1 ['1'] ['1', '0', '0', '0'] true (by decide)
    (by decide) (by decide) (by decide) (by decide)

/-- C4 counterexample: `"-0"` contains a negative sign yet parses
successfully (its parsed sign is `NoSign`, not `Minus`). -/
theorem parse_minus_zero_cex :
    ('-' ∈ "-0".data) ∧ numFromStr "-0".data = .ok ⟨⟨0, 0⟩⟩ :=
  ⟨by decide, rfl⟩

/-- C4 (amended): a string starting with `.` always fails, and a signed
decimal string (optional sign, digit run, optional dot and digit run)
fails exactly when it is a minus sign on a non-zero digit value or its
fractional width exceeds 18; in particular `"-0"` parses successfully
although it contains a negative sign. -/
theorem parse_reject_amended :
    (∀ cs : List Char, cs.head? = some '.' →
      numFromStr cs = .error (.InvalidNum (String.mk cs))) ∧
    (∀ (sg ip fp : List Char) (dotted : Bool),
      sg = [] ∨ sg = ['+'] ∨ sg = ['-'] → ip ≠ [] →
      (∀ c ∈ ip, c.isDigit = true) → (∀ c ∈ fp, c.isDigit = true) →
      (dotted = false → fp = []) →
      ∀ n : Nat, digitsVal (ip ++ fp) = some n →
        ((∃ m, numFromStr (sg ++ ip ++ (if dotted then '.' :: fp else []))
            = .ok m)
          ↔ ¬ ((sg = ['-'] ∧ n ≠ 0) ∨
            MAX_DECIMAL_WIDTH < (fp.length : Int)))) := by
  constructor
  · intro cs h
    unfold numFromStr
    rw [if_pos h]
  · intro sg ip fp dotted hsg hip hipd hfpd hdot n hn
    obtain ⟨n', hn', hns⟩ :=
      numFromStr_grammar sg ip fp dotted hsg hip hipd hfpd hdot
    have hnn : n = n' := by
      rw [hn] at hn'
      exact Option.some.inj hn'
    subst hnn
    rw [hns]
    constructor
    · rintro ⟨m, hm⟩ hc
      rw [if_pos hc] at hm
      exact Except.noConfusion hm
    · intro hc
      rw [if_neg hc]
      exact ⟨_, rfl⟩

/-- Witness for C4: the leading-dot rejection at `".5"` and the
accepted minus-zero `"-0"` (`sg = "-"`, `ip = "0"`). -/
theorem parse_reject_amended_witness :
    numFromStr ".5".data = .error (.InvalidNum ".5") ∧
    ((∃ m, numFromStr
        (['-'] ++ ['0'] ++ (if false then '.' :: ([] : List Char) else []))
          = .ok m)
      ↔ ¬ (((['-'] : List Char) = ['-'] ∧ (0 : Nat) ≠ 0) ∨
        MAX_DECIMAL_WIDTH < ((([] : List Char).length : Int)))) :=
  ⟨parse_reject_amended.1 ".5".data rfl,
    parse_reject_amended.2 ['-'] ['0'] [] false (Or.inr (Or.inr rfl))
      (by decide) (by decide) (by decide) (fun _ => rfl) 0 rfl⟩

end Brc20
